import Mathlib

/-!
Shallow embedding of the CCIP cross-chain delivery tracking engine
(integration-tests/ccip-tests/actions/ccip_helpers.go) and proofs of the
testable properties of the spec against it.

Conventions used throughout:
* Go `*big.Int` amounts are modelled as `Int`; a nil pointer is `Option.none`.
* Go `time.Time` / `time.Duration` values are modelled as `Int` nanoseconds.
* Go `sync.Map` stores are modelled as functions into `Option`.
* Go map iteration (only relevant for `BalanceSheet.Verify`) is modelled by
  materialising the map as an association list.
* a testify assertion is modelled by its boolean outcome; `require` (which
  aborts the test) is modelled by `Except.error`.
-/

namespace CCIPModel

/-! ## BalanceSheet (ccip_helpers.go lines 3581-3663) -/

/-- Embeds the Go `BalanceItem` struct (line 3581).  The `Getter` closure is
not stored; the balance getter is instead passed to `Verify` as the `actual`
environment, keyed by the item key, which is how `AssertBalances` consumes
it. -/
structure BalanceItem where
  Address : String
  AmtToAdd : Option Int
  AmtToSub : Option Int
deriving DecidableEq, Repr

/-- Embeds the Go `BalanceSheet` struct (line 3589): `Items` is the keyed item
map (as an association list, keys unique in normal use) and `PrevBalance` the
previous-balance snapshot map. -/
structure BalanceSheet where
  Items : List (String × BalanceItem)
  PrevBalance : String → Option Int

/-- Keyed insert-or-replace on the `Items` association list, modelling the Go
map assignment `b.Items[key] = item`. -/
def setItem : List (String × BalanceItem) → String → BalanceItem → List (String × BalanceItem)
  | [], key, item => [(key, item)]
  | (k, v) :: rest, key, item =>
      if k = key then (key, item) :: rest else (k, v) :: setItem rest key item

/-- Keyed lookup on the `Items` association list, modelling the Go map read
`prev, ok := b.Items[key]`. -/
def lookupItem (items : List (String × BalanceItem)) (key : String) : Option BalanceItem :=
  (items.find? fun p => p.1 == key).map Prod.snd

/-- Embeds `BalanceSheet.Update` (lines 3595-3623): a fresh key is stored
as-is; an existing key merges `AmtToAdd`/`AmtToSub` additively, a nil amount
contributing zero, and the merged amounts are always non-nil. -/
def BalanceSheet.Update (b : BalanceSheet) (key : String) (item : BalanceItem) : BalanceSheet :=
  match lookupItem b.Items key with
  | none => { b with Items := setItem b.Items key item }
  | some prev =>
      let amtToAdd : Int := match prev.AmtToAdd with | some v => v | none => 0
      let amtToSub : Int := match prev.AmtToSub with | some v => v | none => 0
      let amtToAdd : Int := match item.AmtToAdd with | some v => amtToAdd + v | none => amtToAdd
      let amtToSub : Int := match item.AmtToSub with | some v => amtToSub + v | none => amtToSub
      { b with Items := setItem b.Items key ⟨item.Address, some amtToAdd, some amtToSub⟩ }

/-- One step of the loop body of `BalanceSheet.RecordBalance` (lines 3628-3632):
a key already present in `PrevBalance` is left untouched, an absent key is
set to the snapshot value. -/
def recordBalanceStep (m : String → Option Int) (kv : String × Int) : String → Option Int :=
  match m kv.1 with
  | some _ => m
  | none => fun k => if k = kv.1 then some kv.2 else m k

/-- Embeds `BalanceSheet.RecordBalance` (lines 3625-3633): folds the snapshot
(association-list view of the Go map argument) into `PrevBalance`, first
writer wins per key. -/
def BalanceSheet.RecordBalance (b : BalanceSheet) (bal : List (String × Int)) : BalanceSheet :=
  { b with PrevBalance := bal.foldl recordBalanceStep b.PrevBalance }

/-- Embeds the expected-balance computation inside `BalanceSheet.Verify`
(lines 3640-3646): `exp := prev`, plus `AmtToAdd` if non-nil, minus `AmtToSub`
if non-nil. -/
def expectedBalanceCalc (prev : Int) (item : BalanceItem) : Int :=
  let exp := prev
  let exp := match item.AmtToAdd with | some v => exp + v | none => exp
  match item.AmtToSub with | some v => exp - v | none => exp

/-- Embeds the assertion-building loop of `BalanceSheet.Verify`
(lines 3637-3653): for each item, `require.Truef` on a missing `PrevBalance`
entry aborts the test (modelled as `Except.error` with the text of the Go format
string), otherwise a `(key, expected)` balance assertion is collected. -/
def verifyAssertions : List (String × BalanceItem) → (String → Option Int) →
    Except String (List (String × Int))
  | [], _ => Except.ok []
  | (key, item) :: rest, prev =>
      match prev key with
      | none => Except.error ("previous balance is not captured for " ++ key)
      | some pb => (verifyAssertions rest prev).map fun l => (key, expectedBalanceCalc pb item) :: l

/-- Embeds `AssertBalances` (lines 3536-3569) restricted to the exact-match
branch used by `Verify` (`Within` is empty there): the actual balance of every
assertion must equal its expected value; the returned boolean is the test
outcome. -/
def AssertBalances (assertions : List (String × Int)) (actual : String → Int) : Bool :=
  assertions.all fun p => actual p.1 == p.2

/-- Embeds `BalanceSheet.Verify` (lines 3635-3655): build the assertion list
(aborting on a missing previous balance before any balance is asserted), then
run `AssertBalances` against the actual balances. -/
def BalanceSheet.Verify (b : BalanceSheet) (actual : String → Int) : Except String Bool :=
  (verifyAssertions b.Items b.PrevBalance).map fun l => AssertBalances l actual

/-- First key of `Items` (in iteration order) that has no `PrevBalance`
entry, if any; this is the key whose `require.Truef` fires in `Verify`. -/
def firstMissingPrev : List (String × BalanceItem) → (String → Option Int) → Option String
  | [], _ => none
  | (k, _) :: rest, prev =>
      match prev k with
      | none => some k
      | some _ => firstMissingPrev rest prev

/-! ## Phase durations (timestamps and durations in integer nanoseconds) -/

/-- Value of Go `time.Second` in nanoseconds. -/
def oneSecond : Int := 1000000000

/-- Embeds the duration computation of `AssertEventReportAccepted`
(lines 1990-2003): `totalTime := receivedAt.Sub(prevEventAt)`, clamped to
`time.Second` when negative. -/
def reportAcceptedDuration (receivedAt prevEventAt : Int) : Int :=
  let totalTime := receivedAt - prevEventAt
  if totalTime < 0 then oneSecond else totalTime

/-- Embeds the duration recorded on the success path of `AssertReportBlessed`
(line 2098): the raw `receivedAt.Sub(prevEventAt)`, with no clamp. -/
def reportBlessedDuration (receivedAt prevEventAt : Int) : Int :=
  receivedAt - prevEventAt

/-! ## Generic phase-wait loop

Every `Assert...` helper has the same shape: a `select` loop over a 1s ticker
and an overall timeout timer.  The choices of the scheduler are modelled as a
finite trace of `Sig` values (which channel fires next); phase-specific tick
bodies are plugged in as a `tick` function on the watcher-store state. -/

/-- One `select` wake-up: either the 1s ticker or the timeout timer fired. -/
inductive Sig
  | tick
  | timeout
deriving DecidableEq, Repr

/-- PhaseStatus value passed to `testreporters.RequestStat.UpdateState`. -/
inductive PStatus
  | success
  | failure
deriving DecidableEq, Repr

/-- One `UpdateState` call: the status and, for event-timestamped durations,
the recorded duration.  `none` stands for the wall-clock `time.Since(...)`
durations of the failure paths, which the trace model does not determine. -/
abbrev PRec := PStatus × Option Int

/-- Outcome of running a phase wait on a trace: `result` is `none` when the
trace ended with the loop still waiting, otherwise the return value of the
function; `state` is the final watcher-store state, `resets` the number of
`timer.Reset` calls performed and `records` the `UpdateState` calls made. -/
structure WaitOut (σ ρ : Type) where
  result : Option (Except String ρ)
  state : σ
  resets : Nat
  records : List PRec

/-- Embeds the shared `select` loop of the `Assert...` helpers (e.g.
lines 1401-1438 and 1975-2037): on a ticker fire, run the phase-specific
`tick` body (`none` means the expected key was not consumable and the loop
continues); on a timer fire, consult the connectivity flag
`IsConnectionRestoredRecently` (`flag`, `none` modelling a nil pointer): if
the flag is non-nil and false the timer is reset up to 3 times before the
"possible RPC issue" failure, otherwise the wait fails immediately with the
"not found" error. -/
def phaseWait {σ ρ : Type} (flag : Option Bool)
    (tick : σ → Option (Except String ρ × σ × List PRec))
    (rpcErr notFoundErr : String) :
    List Sig → σ → Nat → WaitOut σ ρ
  | [], st, r => ⟨none, st, r, []⟩
  | Sig.tick :: rest, st, r =>
      match tick st with
      | some (res, st', recs) => ⟨some res, st', r, recs⟩
      | none => phaseWait flag tick rpcErr notFoundErr rest st r
  | Sig.timeout :: rest, st, r =>
      if flag = some false then
        if r > 2 then ⟨some (Except.error rpcErr), st, r, [(PStatus.failure, none)]⟩
        else phaseWait flag tick rpcErr notFoundErr rest st (r + 1)
      else ⟨some (Except.error notFoundErr), st, r, [(PStatus.failure, none)]⟩

/-- Number of timeout-timer firings in a trace. -/
def countTimeouts (trace : List Sig) : Nat :=
  trace.count Sig.timeout

/-! ## CCIPSendRequested (source module) -/

/-- Decoded `EVM2EVMOnRampCCIPSendRequested` event payload (the fields the
tracked logic reads). -/
structure SendReqEvent where
  seqNum : Nat
  blockNumber : Nat
deriving DecidableEq, Repr

/-- The `CCIPSendRequestedWatcher` store: tx hash to slice of received
events. -/
abbrev SendReqStore := String → Option (List SendReqEvent)

/-- Embeds the `CCIPSendRequested` branch of the subscription callback in
`StartEventWatchers` (lines 2714-2721): an existing slice for the tx hash is
appended to, otherwise a fresh one-element slice is stored. -/
def storeCCIPSendRequested (st : SendReqStore) (txHash : String) (e : SendReqEvent) :
    SendReqStore :=
  fun k =>
    if k = txHash then
      match st txHash with
      | some evs => some (evs ++ [e])
      | none => some [e]
    else st k

/-- Embeds the ticker body of `AssertEventCCIPSendRequested`
(lines 1403-1418): the wait consumes the slice only when its length equals
the number of requests, deletes the key, and records Success with duration 0
for each request. -/
def sendReqTick (txHash : String) (numReq : Nat) (st : SendReqStore) :
    Option (Except String (List SendReqEvent) × SendReqStore × List PRec) :=
  match st txHash with
  | some evs =>
      if evs.length = numReq then
        some (Except.ok evs, fun k => if k = txHash then none else st k,
          evs.map fun _ => (PStatus.success, some 0))
      else none
  | none => none

/-- Embeds `SourceCCIPModule.AssertEventCCIPSendRequested` (lines 1388-1439)
as a run of the generic loop. -/
def AssertEventCCIPSendRequested (flag : Option Bool) (txHash : String) (numReq : Nat)
    (trace : List Sig) (st : SendReqStore) : WaitOut SendReqStore (List SendReqEvent) :=
  phaseWait flag (sendReqTick txHash numReq)
    "possible RPC issue - CCIPSendRequested event is not found"
    "CCIPSendRequested event is not found" trace st 0

/-! ## ReportAccepted (destination module) -/

/-- Commit-report interval of sequence numbers, inclusive on both ends. -/
structure CommitInterval where
  min : Nat
  max : Nat
deriving DecidableEq, Repr

/-- Decoded commit report: merkle root (modelled as `Nat`) and interval. -/
structure CommitStoreCommitReport where
  merkleRoot : Nat
  interval : CommitInterval
deriving DecidableEq, Repr

/-- Decoded `CommitStoreReportAccepted` event payload. -/
structure ReportAcceptedEvent where
  report : CommitStoreCommitReport
  blockNumber : Nat
  txHash : String
deriving DecidableEq, Repr

/-- The `ReportAcceptedWatcher` store: sequence number to event. -/
abbrev ReportAcceptedStore := Nat → Option ReportAcceptedEvent

/-- Embeds the `ReportAccepted` branch of the subscription callback
(lines 2763-2766): one event is stored, by overwrite, under every sequence
number of its report interval. -/
def storeReportAccepted (st : ReportAcceptedStore) (e : ReportAcceptedEvent) :
    ReportAcceptedStore :=
  fun k =>
    if e.report.interval.min ≤ k ∧ k ≤ e.report.interval.max then some e else st k

/-- Embeds the ticker body of `AssertEventReportAccepted` (lines 1977-2019):
consume the event for the sequence number, delete the key, compute
`receivedAt` from the block header (falling back to the current wall clock
`now` on header error) and record Success with the clamped duration. -/
def reportAcceptedTick (seqNum : Nat) (hdr : Nat → Option Int) (now prevEventAt : Int)
    (st : ReportAcceptedStore) :
    Option (Except String (CommitStoreCommitReport × Int) × ReportAcceptedStore × List PRec) :=
  match st seqNum with
  | some ev =>
      let receivedAt := (hdr ev.blockNumber).getD now
      some (Except.ok (ev.report, receivedAt), fun k => if k = seqNum then none else st k,
        [(PStatus.success, some (reportAcceptedDuration receivedAt prevEventAt))])
  | none => none

/-- Embeds `DestCCIPModule.AssertEventReportAccepted` (lines 1962-2039) as a
run of the generic loop. -/
def AssertEventReportAccepted (flag : Option Bool) (seqNum : Nat) (hdr : Nat → Option Int)
    (now prevEventAt : Int) (trace : List Sig) (st : ReportAcceptedStore) :
    WaitOut ReportAcceptedStore (CommitStoreCommitReport × Int) :=
  phaseWait flag (reportAcceptedTick seqNum hdr now prevEventAt)
    "possible RPC issue - ReportAccepted is not found"
    "ReportAccepted is not found" trace st 0

/-! ## ExecutionStateChanged (destination module) -/

/-- Decoded `EVM2EVMOffRampExecutionStateChanged` event payload. -/
structure ExecStateChangedEvent where
  state : Nat
  blockNumber : Nat
  txHash : String
deriving DecidableEq, Repr

/-- The `ExecStateChangedWatcher` store: sequence number to event. -/
abbrev ExecStateStore := Nat → Option ExecStateChangedEvent

/-- Embeds the `ExecutionStateChanged` branch of the subscription callback
(line 2856): plain overwrite under the sequence number of the event. -/
def storeExecStateChanged (st : ExecStateStore) (seqNum : Nat) (e : ExecStateChangedEvent) :
    ExecStateStore :=
  fun k => if k = seqNum then some e else st k

/-- Embeds the ticker body of `AssertEventExecutionStateChanged`
(lines 1905-1939): consume and delete the event, then compare its execution
state with the expected one; a mismatch records Failure and returns an error,
a match records Success with the event-timestamp duration. -/
def execStateTick (seqNum expState : Nat) (hdr : Nat → Option Int) (now timeNow : Int)
    (st : ExecStateStore) : Option (Except String Nat × ExecStateStore × List PRec) :=
  match st seqNum with
  | some e =>
      let st' : ExecStateStore := fun k => if k = seqNum then none else st k
      let receivedAt := (hdr e.blockNumber).getD now
      if e.state = expState then
        some (Except.ok e.state, st', [(PStatus.success, some (receivedAt - timeNow))])
      else
        some (Except.error "ExecutionStateChanged event state mismatch", st',
          [(PStatus.failure, none)])
  | none => none

/-- Embeds `DestCCIPModule.AssertEventExecutionStateChanged`
(lines 1889-1960) as a run of the generic loop. -/
def AssertEventExecutionStateChanged (flag : Option Bool) (seqNum expState : Nat)
    (hdr : Nat → Option Int) (now timeNow : Int) (trace : List Sig) (st : ExecStateStore) :
    WaitOut ExecStateStore Nat :=
  phaseWait flag (execStateTick seqNum expState hdr now timeNow)
    "possible RPC issues - ExecutionStateChanged event not found"
    "ExecutionStateChanged event not found" trace st 0

/-! ## ReportBlessed (destination module) -/

/-- Raw `types.Log` of a `TaggedRootBlessed` event (the fields read). -/
structure BlessLog where
  blockNumber : Nat
  txHash : String
deriving DecidableEq, Repr

/-- The two blessing stores: `ReportBlessedWatcher` keyed by merkle root and
`ReportBlessedBySeqNum` keyed by sequence number. -/
structure BlessState where
  rootWatcher : Nat → Option BlessLog
  bySeqNum : Nat → Option BlessLog

/-- Embeds the Go loop `for i := Min; i <= Max; i++ { Store(i, vLogs) }`
(lines 2077-2079) by iteration count: store `log` under `cnt` consecutive
keys starting at `lo`. -/
def expandRange : (Nat → Option BlessLog) → Nat → Nat → BlessLog → (Nat → Option BlessLog)
  | m, _, 0, _ => m
  | m, lo, Nat.succ c, log =>
      expandRange (fun k => if k = lo then some log else m k) (lo + 1) c log

/-- The interval form of `expandRange`: a `min > max` interval stores
nothing, exactly like the Go `for` loop. -/
def storeBySeqInterval (m : Nat → Option BlessLog) (lo hi : Nat) (log : BlessLog) :
    Nat → Option BlessLog :=
  if lo ≤ hi then expandRange m lo (hi + 1 - lo) log else m

/-- Embeds the found-as-root consumption step of `AssertReportBlessed`
(lines 2075-2081): fan the blessing log out to every sequence number of the
commit interval, then delete the root entry. -/
def consumeBlessedRoot (st : BlessState) (root lo hi : Nat) (log : BlessLog) : BlessState :=
  { rootWatcher := fun r => if r = root then none else st.rootWatcher r,
    bySeqNum := storeBySeqInterval st.bySeqNum lo hi log }

/-- Embeds the ticker body of `AssertReportBlessed` (lines 2061-2106): look
the merkle root of the report up in `ReportBlessedWatcher`, falling back to
`ReportBlessedBySeqNum` under the sequence number; on a root hit expand the
interval and delete the root, on a sequence-number hit delete that entry;
record Success with the unclamped blessing duration and return
`receivedAt`. -/
def reportBlessedTick (seqNum : Nat) (report : CommitStoreCommitReport)
    (hdr : Nat → Option Int) (now prevEventAt : Int) (st : BlessState) :
    Option (Except String Int × BlessState × List PRec) :=
  match st.rootWatcher report.merkleRoot with
  | some log =>
      let st' := consumeBlessedRoot st report.merkleRoot report.interval.min
        report.interval.max log
      let receivedAt := (hdr log.blockNumber).getD now
      some (Except.ok receivedAt, st',
        [(PStatus.success, some (reportBlessedDuration receivedAt prevEventAt))])
  | none =>
      match st.bySeqNum seqNum with
      | some log =>
          let st' : BlessState :=
            { rootWatcher := st.rootWatcher,
              bySeqNum := fun k => if k = seqNum then none else st.bySeqNum k }
          let receivedAt := (hdr log.blockNumber).getD now
          some (Except.ok receivedAt, st',
            [(PStatus.success, some (reportBlessedDuration receivedAt prevEventAt))])
      | none => none

/-- Embeds `DestCCIPModule.AssertReportBlessed` (lines 2041-2125): a nil ARM
contract (`arm = none`, the mock-ARM deployment) skips the phase entirely,
returning the predecessor timestamp with no loop iteration, no store access,
no timer and no status record; otherwise the generic wait loop runs with the
blessing ticker body. -/
def AssertReportBlessed (arm : Option Unit) (flag : Option Bool) (seqNum : Nat)
    (report : CommitStoreCommitReport) (hdr : Nat → Option Int) (now prevEventAt : Int)
    (trace : List Sig) (st : BlessState) : WaitOut BlessState Int :=
  match arm with
  | none => ⟨some (Except.ok prevEventAt), st, 0, []⟩
  | some _ =>
      phaseWait flag (reportBlessedTick seqNum report hdr now prevEventAt)
        "possible RPC issue - ReportBlessed is not found"
        "ReportBlessed is not found" trace st 0

/-! ## ValidateRequestByTxHash (lane coordinator, lines 2632-2691)

The per-phase waits are abstracted by their boolean outcomes (an oracle per
transaction-level phase and one per message); the embedding records, in
order, which phase waits the function starts, mirroring the Go control flow
of early returns on every error. -/

/-- Destination-side phases run per message inside the loop of
`ValidateRequestByTxHash`. -/
inductive DestPhase
  | destSeqIncrement
  | reportAccepted
  | reportBlessed
  | execStateChanged
deriving DecidableEq, Repr

/-- Outcome oracle for one message of the transaction: whether its request
stat is found (line 2664) and whether each of its four destination phase
waits succeeds. -/
structure MsgOracle where
  statFound : Bool
  destSeqOk : Bool
  repAccOk : Bool
  repBlessOk : Bool
  execOk : Bool
deriving DecidableEq, Repr

/-- A started phase wait: the two transaction-level waits, or one
destination phase of one message (the element carries the oracle of the
message). -/
inductive PhaseCall
  | send
  | srcFin
  | msg (m : MsgOracle) (p : DestPhase)
deriving DecidableEq, Repr

/-- Success of one destination phase according to the message oracle. -/
def destPhaseOk (m : MsgOracle) : DestPhase → Bool
  | DestPhase.destSeqIncrement => m.destSeqOk
  | DestPhase.reportAccepted => m.repAccOk
  | DestPhase.reportBlessed => m.repBlessOk
  | DestPhase.execStateChanged => m.execOk

/-- Success of a started phase wait according to the oracles. -/
def phaseCallOk (sendOk finOk : Bool) : PhaseCall → Bool
  | PhaseCall.send => sendOk
  | PhaseCall.srcFin => finOk
  | PhaseCall.msg m p => destPhaseOk m p

/-- The four destination phase waits of one message, in source order
(lines 2668-2688). -/
def msgPhases (m : MsgOracle) : List PhaseCall :=
  [PhaseCall.msg m DestPhase.destSeqIncrement, PhaseCall.msg m DestPhase.reportAccepted,
   PhaseCall.msg m DestPhase.reportBlessed, PhaseCall.msg m DestPhase.execStateChanged]

/-- Embeds the per-message loop of `ValidateRequestByTxHash`
(lines 2655-2689): for each message, look the request stat up (error if
absent), then run the four destination phase waits in order, returning the
wrapped error of the first failing wait. -/
def validateMsgs : List MsgOracle → List PhaseCall × Option String
  | [] => ([], none)
  | m :: rest =>
      if !m.statFound then
        ([], some "could not find request stat for seq number")
      else if !m.destSeqOk then
        ([PhaseCall.msg m DestPhase.destSeqIncrement],
         some "could not validate seq number increase at commit store")
      else if !m.repAccOk then
        ([PhaseCall.msg m DestPhase.destSeqIncrement, PhaseCall.msg m DestPhase.reportAccepted],
         some "could not validate ReportAccepted event")
      else if !m.repBlessOk then
        ([PhaseCall.msg m DestPhase.destSeqIncrement, PhaseCall.msg m DestPhase.reportAccepted,
          PhaseCall.msg m DestPhase.reportBlessed],
         some "could not validate ReportBlessed event")
      else if !m.execOk then
        (msgPhases m, some "could not validate ExecutionStateChanged event")
      else
        (msgPhases m ++ (validateMsgs rest).1, (validateMsgs rest).2)

/-- Embeds `CCIPLane.ValidateRequestByTxHash` (lines 2632-2691): the
send-requested wait, then log finalization, then the per-message loop, each
early-returning an error; the result pairs the ordered list of phase waits
actually started with the returned error (if any). -/
def ValidateRequestByTxHash (sendOk finOk : Bool) (msgs : List MsgOracle) :
    List PhaseCall × Option String :=
  if !sendOk then
    ([PhaseCall.send], some "could not validate CCIPSendRequested event")
  else if !finOk then
    ([PhaseCall.send, PhaseCall.srcFin], some "could not finalize CCIPSendRequested event")
  else
    (PhaseCall.send :: PhaseCall.srcFin :: (validateMsgs msgs).1, (validateMsgs msgs).2)

/-- The full fixed phase order for the message list of the transaction: Send,
SourceFinalized, then the four destination phases of each message in
sequence. -/
def canonicalTrace (msgs : List MsgOracle) : List PhaseCall :=
  PhaseCall.send :: PhaseCall.srcFin :: msgs.flatMap msgPhases

/-- Keyed lookup on a snapshot association list (the value the first
occurrence of a key carries). -/
def snapValue : List (String × Int) → String → Option Int
  | [], _ => none
  | (k, v) :: rest, key => if k = key then some v else snapValue rest key

/-! ## Helper lemmas -/

theorem lookupItem_setItem_self :
    ∀ (items : List (String × BalanceItem)) (key : String) (item : BalanceItem),
      lookupItem (setItem items key item) key = some item
  | [], key, item => by simp [setItem, lookupItem]
  | (k, v) :: rest, key, item => by
      by_cases h : k = key
      · simp [setItem, h, lookupItem]
      · simp only [setItem, if_neg h, lookupItem, List.find?]
        have hbeq : (k == key) = false := by simpa using h
        simp only [hbeq]
        exact lookupItem_setItem_self rest key item

theorem recordBalance_foldl (bal : List (String × Int)) :
    ∀ (m : String → Option Int) (key : String),
      (bal.foldl recordBalanceStep m) key =
        match m key with
        | some v => some v
        | none => snapValue bal key := by
  induction bal with
  | nil => intro m key; cases h : m key <;> simp [snapValue, h]
  | cons kv rest ih =>
      intro m key
      obtain ⟨k, v⟩ := kv
      simp only [List.foldl_cons]
      rw [ih]
      by_cases hk : k = key
      · subst hk
        cases h : m k with
        | some w => simp [recordBalanceStep, h, snapValue]
        | none => simp [recordBalanceStep, h, snapValue]
      · cases h : m k with
        | some w =>
            simp only [recordBalanceStep, h]
            cases m key <;> simp [snapValue, hk]
        | none =>
            simp only [recordBalanceStep, h]
            have : (if key = k then some v else m key) = m key := by
              rw [if_neg (fun hc => hk hc.symm)]
            rw [this]
            cases m key <;> simp [snapValue, hk]

/-! ## Claim C8: BalanceSheet.Update merges additively -/

/-- C8: `BalanceSheet.Update` merges repeated updates to the same key
additively: for a key not yet tracked, updating with `i1` and then `i2`
yields an item whose `AmtToAdd` is the sum of the two updates' `AmtToAdd`
values and whose `AmtToSub` is the sum of the two `AmtToSub` values, a nil
amount counting as zero. -/
theorem balanceSheet_update_additive (b : BalanceSheet) (key : String) (i1 i2 : BalanceItem)
    (h : lookupItem b.Items key = none) :
    lookupItem ((b.Update key i1).Update key i2).Items key =
      some ⟨i2.Address, some (i1.AmtToAdd.getD 0 + i2.AmtToAdd.getD 0),
        some (i1.AmtToSub.getD 0 + i2.AmtToSub.getD 0)⟩ := by
  have h1 : (b.Update key i1).Items = setItem b.Items key i1 := by
    unfold BalanceSheet.Update
    rw [h]
  have h2 : lookupItem (b.Update key i1).Items key = some i1 := by
    rw [h1]; exact lookupItem_setItem_self _ _ _
  obtain ⟨a1, add1, sub1⟩ := i1
  obtain ⟨a2, add2, sub2⟩ := i2
  generalize hB : b.Update key ⟨a1, add1, sub1⟩ = b1 at h2
  unfold BalanceSheet.Update
  rw [h2]
  dsimp only
  rw [lookupItem_setItem_self]
  cases add1 <;> cases add2 <;> cases sub1 <;> cases sub2 <;> simp [Int.add_comm]

/-- Witness for C8 at the example given in the spec: add 10 then add 5 on a fresh
key merges to add 15. -/
theorem balanceSheet_update_additive_witness :
    lookupItem (((BalanceSheet.mk [] fun _ => none).Update "pool" ⟨"a", some 10, none⟩).Update
        "pool" ⟨"a", some 5, none⟩).Items "pool" = some ⟨"a", some 15, some 0⟩ := by
  have h := balanceSheet_update_additive ⟨[], fun _ => none⟩ "pool" ⟨"a", some 10, none⟩
    ⟨"a", some 5, none⟩ rfl
  simpa using h

/-! ## Claim C9: BalanceSheet.RecordBalance never overwrites -/

/-- C9: `BalanceSheet.RecordBalance` is first-writer-wins: a key already
present in `PrevBalance` keeps its first recorded value no matter what the
snapshot contains, and a key absent from `PrevBalance` is added with the
snapshot value for that key. -/
theorem balanceSheet_recordBalance_first_writer_wins (b : BalanceSheet)
    (bal : List (String × Int)) (key : String) :
    (∀ v, b.PrevBalance key = some v → (b.RecordBalance bal).PrevBalance key = some v)
    ∧ (b.PrevBalance key = none → (b.RecordBalance bal).PrevBalance key = snapValue bal key) := by
  constructor
  · intro v hv
    show (bal.foldl recordBalanceStep b.PrevBalance) key = some v
    rw [recordBalance_foldl, hv]
  · intro hv
    show (bal.foldl recordBalanceStep b.PrevBalance) key = snapValue bal key
    rw [recordBalance_foldl, hv]

/-- Witness for C9: recording a snapshot twice for the same key keeps the
first value, and a fresh key receives the snapshot value. -/
theorem balanceSheet_recordBalance_first_writer_wins_witness :
    ((BalanceSheet.mk [] fun k => if k = "a" then some 100 else none).RecordBalance
        [("a", 7), ("b", 9)]).PrevBalance "a" = some 100
    ∧ ((BalanceSheet.mk [] fun k => if k = "a" then some 100 else none).RecordBalance
        [("a", 7), ("b", 9)]).PrevBalance "b" = snapValue [("a", 7), ("b", 9)] "b" := by
  constructor
  · exact (balanceSheet_recordBalance_first_writer_wins ⟨[], fun k => if k = "a" then some 100 else none⟩
      [("a", 7), ("b", 9)] "a").1 100 (by decide)
  · exact (balanceSheet_recordBalance_first_writer_wins ⟨[], fun k => if k = "a" then some 100 else none⟩
      [("a", 7), ("b", 9)] "b").2 (by decide)

/-! ## Claim C10: nil ARM skips the ReportBlessed phase -/

/-- C10: with a nil ARM contract (mock ARM), `AssertReportBlessed` returns
success immediately with the unchanged predecessor timestamp, leaves both
watcher stores untouched, performs no timer reset and records no phase
status, for every store state, connectivity flag and scheduler trace. -/
theorem assertReportBlessed_mock_arm_skips (flag : Option Bool) (seqNum : Nat)
    (report : CommitStoreCommitReport) (hdr : Nat → Option Int) (now prevEventAt : Int)
    (trace : List Sig) (st : BlessState) :
    AssertReportBlessed none flag seqNum report hdr now prevEventAt trace st =
      ⟨some (Except.ok prevEventAt), st, 0, []⟩ := rfl

/-! ## Claim C5: negative-duration clamp -/

/-- C5 counterexample: the claim says every phase wait clamps a
would-be-negative duration to 1 second, but `AssertReportBlessed` records
the raw difference: with a blessing-event timestamp of 5 and a predecessor
completion timestamp of 10, the recorded duration is -5, which is negative
and differs from the 1-second clamp. -/
theorem reportBlessed_negative_duration_cex :
    (AssertReportBlessed (some ()) (some true) 7 ⟨42, ⟨5, 9⟩⟩ (fun _ => some 5) 0 10
        [Sig.tick] ⟨fun r => if r = 42 then some ⟨100, "0xb"⟩ else none, fun _ => none⟩).records
      = [(PStatus.success, some (-5))]
    ∧ (-5 : Int) < 0 ∧ (-5 : Int) ≠ oneSecond := by
  refine ⟨by decide, by decide, by decide⟩

/-- C5 amended: only the ReportAccepted (Commit) phase clamps: when the
accepted-report timestamp precedes the predecessor phase completion
timestamp, `AssertEventReportAccepted` records exactly 1 second and its
recorded duration is never negative, while `AssertReportBlessed` records the
raw signed difference. -/
theorem reportAcceptedDuration_clamped (r p : Int) :
    (r < p → reportAcceptedDuration r p = oneSecond)
    ∧ 0 ≤ reportAcceptedDuration r p
    ∧ reportBlessedDuration r p = r - p := by
  refine ⟨?_, ?_, rfl⟩
  · intro h
    unfold reportAcceptedDuration
    rw [if_pos (by omega)]
  · simp only [reportAcceptedDuration, oneSecond]
    split <;> omega

/-- Witness for the amended C5 at the timestamps of the counterexample. -/
theorem reportAcceptedDuration_clamped_witness :
    reportAcceptedDuration 5 10 = oneSecond ∧ 0 ≤ reportAcceptedDuration 5 10 := by
  have h := reportAcceptedDuration_clamped 5 10
  exact ⟨h.1 (by decide), h.2.1⟩

/-! ## Generic wait-loop lemmas -/

theorem countTimeouts_cons_tick (rest : List Sig) :
    countTimeouts (Sig.tick :: rest) = countTimeouts rest := by
  simp [countTimeouts, List.count_cons]

theorem countTimeouts_cons_timeout (rest : List Sig) :
    countTimeouts (Sig.timeout :: rest) = countTimeouts rest + 1 := by
  simp [countTimeouts, List.count_cons]

theorem phaseWait_rpc_fail {σ ρ : Type} (tick : σ → Option (Except String ρ × σ × List PRec))
    (rpcErr nfErr : String) (st : σ) (htick : tick st = none) :
    ∀ (trace : List Sig) (r : Nat), r ≤ 3 → 4 ≤ r + countTimeouts trace →
      phaseWait (some false) tick rpcErr nfErr trace st r =
        ⟨some (Except.error rpcErr), st, 3, [(PStatus.failure, none)]⟩ := by
  intro trace
  induction trace with
  | nil =>
      intro r h1 h2
      simp [countTimeouts] at h2
      omega
  | cons s rest ih =>
      intro r h1 h2
      cases s with
      | tick =>
          simp only [phaseWait, htick]
          exact ih r h1 (by rw [countTimeouts_cons_tick] at h2; exact h2)
      | timeout =>
          rw [countTimeouts_cons_timeout] at h2
          simp only [phaseWait]
          rw [if_pos trivial]
          by_cases hr : r > 2
          · rw [if_pos hr]
            have : r = 3 := by omega
            rw [this]
          · rw [if_neg hr]
            exact ih (r + 1) (by omega) (by omega)

theorem phaseWait_rpc_waiting {σ ρ : Type} (tick : σ → Option (Except String ρ × σ × List PRec))
    (rpcErr nfErr : String) (st : σ) (htick : tick st = none) :
    ∀ (trace : List Sig) (r : Nat), r + countTimeouts trace ≤ 3 →
      phaseWait (some false) tick rpcErr nfErr trace st r =
        ⟨none, st, r + countTimeouts trace, []⟩ := by
  intro trace
  induction trace with
  | nil =>
      intro r h
      simp [phaseWait, countTimeouts]
  | cons s rest ih =>
      intro r h
      cases s with
      | tick =>
          rw [countTimeouts_cons_tick] at h ⊢
          simp only [phaseWait, htick]
          exact ih r h
      | timeout =>
          rw [countTimeouts_cons_timeout] at h ⊢
          simp only [phaseWait]
          rw [if_pos trivial, if_neg (show ¬r > 2 by omega)]
          rw [ih (r + 1) (by omega)]
          have hres : r + 1 + countTimeouts rest = r + (countTimeouts rest + 1) := by omega
          rw [hres]

theorem phaseWait_healthy_notFound {σ ρ : Type}
    (tick : σ → Option (Except String ρ × σ × List PRec)) (rpcErr nfErr : String) (st : σ)
    (flag : Option Bool) (htick : tick st = none) (hflag : flag ≠ some false) :
    ∀ trace : List Sig, Sig.timeout ∈ trace →
      phaseWait flag tick rpcErr nfErr trace st 0 =
        ⟨some (Except.error nfErr), st, 0, [(PStatus.failure, none)]⟩ := by
  intro trace
  induction trace with
  | nil => intro h; cases h
  | cons s rest ih =>
      intro h
      cases s with
      | tick =>
          simp only [phaseWait, htick]
          refine ih ?_
          rcases List.mem_cons.mp h with h' | h'
          · cases h'
          · exact h'
      | timeout =>
          simp only [phaseWait]
          rw [if_neg hflag]

/-! ## Claim C2: timeout-reset bound under a never-restoring connection -/

/-- C2: with the connectivity flag pinned to "not recently restored" and the
awaited event never delivered, a phase wait (shown for
`AssertEventCCIPSendRequested` and `AssertEventReportAccepted`) resets its
timer exactly 3 times: while at most 3 timeouts have fired it is still
waiting with one reset per firing and no failure recorded, and once a 4th
timeout fires it stops with the "possible RPC issue" error, exactly 3 resets
performed, and PhaseStatus Failure recorded — it cannot loop beyond the 4th
firing. -/
theorem phaseWait_timeout_reset_bound (txHash : String) (numReq : Nat) (sst : SendReqStore)
    (seqNum : Nat) (hdr : Nat → Option Int) (now prevEventAt : Int)
    (ast : ReportAcceptedStore) (trace1 trace2 : List Sig)
    (h1 : sst txHash = none) (h2 : ast seqNum = none)
    (ht1 : 4 ≤ countTimeouts trace1) (ht2 : 4 ≤ countTimeouts trace2) :
    AssertEventCCIPSendRequested (some false) txHash numReq trace1 sst =
      ⟨some (Except.error "possible RPC issue - CCIPSendRequested event is not found"), sst, 3,
        [(PStatus.failure, none)]⟩
    ∧ AssertEventReportAccepted (some false) seqNum hdr now prevEventAt trace2 ast =
      ⟨some (Except.error "possible RPC issue - ReportAccepted is not found"), ast, 3,
        [(PStatus.failure, none)]⟩
    ∧ (∀ trace, countTimeouts trace ≤ 3 →
        AssertEventCCIPSendRequested (some false) txHash numReq trace sst =
          ⟨none, sst, countTimeouts trace, []⟩)
    ∧ (∀ trace, countTimeouts trace ≤ 3 →
        AssertEventReportAccepted (some false) seqNum hdr now prevEventAt trace ast =
          ⟨none, ast, countTimeouts trace, []⟩) := by
  have t1 : sendReqTick txHash numReq sst = none := by simp [sendReqTick, h1]
  have t2 : reportAcceptedTick seqNum hdr now prevEventAt ast = none := by
    simp [reportAcceptedTick, h2]
  refine ⟨?_, ?_, ?_, ?_⟩
  · exact phaseWait_rpc_fail _ _ _ _ t1 trace1 0 (by omega) (by omega)
  · exact phaseWait_rpc_fail _ _ _ _ t2 trace2 0 (by omega) (by omega)
  · intro trace h
    simpa using phaseWait_rpc_waiting _ _ _ _ t1 trace 0 (by omega)
  · intro trace h
    simpa using phaseWait_rpc_waiting _ _ _ _ t2 trace 0 (by omega)

/-- Witness for C2 on a four-timeout trace with empty stores. -/
theorem phaseWait_timeout_reset_bound_witness :
    AssertEventCCIPSendRequested (some false) "0xabc" 1
        [Sig.timeout, Sig.timeout, Sig.timeout, Sig.timeout] (fun _ => none) =
      ⟨some (Except.error "possible RPC issue - CCIPSendRequested event is not found"),
        fun _ => none, 3, [(PStatus.failure, none)]⟩ :=
  (phaseWait_timeout_reset_bound "0xabc" 1 (fun _ => none) 5 (fun _ => none) 0 0 (fun _ => none)
    [Sig.timeout, Sig.timeout, Sig.timeout, Sig.timeout]
    [Sig.timeout, Sig.timeout, Sig.timeout, Sig.timeout] rfl rfl (by decide) (by decide)).1

/-! ## Claim C7: healthy-connectivity timeout fails immediately -/

/-- C7: when the timeout fires and the connectivity flag does not report an
active outage (it is nil or reports "recently restored"), the phase wait
(shown for `AssertEventCCIPSendRequested` and
`AssertEventExecutionStateChanged`) records PhaseStatus Failure and returns
the "not found" error with zero timer resets. -/
theorem phaseWait_healthy_timeout_not_found (flag : Option Bool) (hflag : flag ≠ some false)
    (txHash : String) (numReq : Nat) (sst : SendReqStore) (seqNum expState : Nat)
    (hdr : Nat → Option Int) (now timeNow : Int) (est : ExecStateStore)
    (trace1 trace2 : List Sig) (h1 : sst txHash = none) (h2 : est seqNum = none)
    (m1 : Sig.timeout ∈ trace1) (m2 : Sig.timeout ∈ trace2) :
    AssertEventCCIPSendRequested flag txHash numReq trace1 sst =
      ⟨some (Except.error "CCIPSendRequested event is not found"), sst, 0,
        [(PStatus.failure, none)]⟩
    ∧ AssertEventExecutionStateChanged flag seqNum expState hdr now timeNow trace2 est =
      ⟨some (Except.error "ExecutionStateChanged event not found"), est, 0,
        [(PStatus.failure, none)]⟩ := by
  constructor
  · exact phaseWait_healthy_notFound _ _ _ _ flag (by simp [sendReqTick, h1]) hflag trace1 m1
  · exact phaseWait_healthy_notFound _ _ _ _ flag (by simp [execStateTick, h2]) hflag trace2 m2

/-- Witness for C7 with a healthy ("recently restored") flag and a trace
whose timer fires after two idle ticks. -/
theorem phaseWait_healthy_timeout_not_found_witness :
    AssertEventCCIPSendRequested (some true) "0xabc" 1 [Sig.tick, Sig.tick, Sig.timeout]
        (fun _ => none) =
      ⟨some (Except.error "CCIPSendRequested event is not found"), fun _ => none, 0,
        [(PStatus.failure, none)]⟩ :=
  (phaseWait_healthy_timeout_not_found (some true) (by decide) "0xabc" 1 (fun _ => none) 5 0
    (fun _ => none) 0 0 (fun _ => none) [Sig.tick, Sig.tick, Sig.timeout]
    [Sig.tick, Sig.tick, Sig.timeout] rfl rfl (by decide) (by decide)).1

/-! ## Range-expansion lemmas -/

theorem expandRange_outside :
    ∀ (cnt lo : Nat) (m : Nat → Option BlessLog) (log : BlessLog) (i : Nat),
      i < lo ∨ lo + cnt ≤ i → expandRange m lo cnt log i = m i := by
  intro cnt
  induction cnt with
  | zero => intro lo m log i _; rfl
  | succ c ih =>
      intro lo m log i h
      show expandRange (fun k => if k = lo then some log else m k) (lo + 1) c log i = m i
      rw [ih (lo + 1) _ log i (by omega)]
      have hne : ¬i = lo := by omega
      simp [hne]

theorem expandRange_inside :
    ∀ (cnt lo : Nat) (m : Nat → Option BlessLog) (log : BlessLog) (i : Nat),
      lo ≤ i → i < lo + cnt → expandRange m lo cnt log i = some log := by
  intro cnt
  induction cnt with
  | zero => intro lo m log i h1 h2; omega
  | succ c ih =>
      intro lo m log i h1 h2
      show expandRange (fun k => if k = lo then some log else m k) (lo + 1) c log i = some log
      by_cases hi : i = lo
      · rw [expandRange_outside c (lo + 1) _ log i (by omega)]
        simp [hi]
      · exact ih (lo + 1) _ log i (by omega) (by omega)

theorem storeBySeqInterval_inside (m : Nat → Option BlessLog) (lo hi : Nat) (log : BlessLog)
    (i : Nat) (h1 : lo ≤ i) (h2 : i ≤ hi) :
    storeBySeqInterval m lo hi log i = some log := by
  unfold storeBySeqInterval
  rw [if_pos (by omega)]
  exact expandRange_inside _ _ _ _ _ h1 (by omega)

theorem storeBySeqInterval_outside (m : Nat → Option BlessLog) (lo hi : Nat) (log : BlessLog)
    (i : Nat) (h : i < lo ∨ hi < i) :
    storeBySeqInterval m lo hi log i = m i := by
  unfold storeBySeqInterval
  split
  · exact expandRange_outside _ _ _ _ _ (by omega)
  · rfl

/-! ## Claim C4: blessing range expansion -/

/-- C4: when `AssertReportBlessed` finds the blessing event stored under the
merkle root of the commit report, one tick consumes it into
`consumeBlessedRoot`: the event is stored under every sequence number in the
inclusive interval of the commit report, no sequence number outside the
interval is touched, and the root entry is deleted, so a lookup for any
in-interval sequence number afterwards resolves to the blessing event. -/
theorem assertReportBlessed_range_expansion (seqNum : Nat) (report : CommitStoreCommitReport)
    (hdr : Nat → Option Int) (now prevEventAt : Int) (st : BlessState) (log : BlessLog)
    (hroot : st.rootWatcher report.merkleRoot = some log) :
    reportBlessedTick seqNum report hdr now prevEventAt st =
      some (Except.ok ((hdr log.blockNumber).getD now),
        consumeBlessedRoot st report.merkleRoot report.interval.min report.interval.max log,
        [(PStatus.success,
          some (reportBlessedDuration ((hdr log.blockNumber).getD now) prevEventAt))])
    ∧ (∀ i, report.interval.min ≤ i → i ≤ report.interval.max →
        (consumeBlessedRoot st report.merkleRoot report.interval.min report.interval.max
          log).bySeqNum i = some log)
    ∧ (∀ i, i < report.interval.min ∨ report.interval.max < i →
        (consumeBlessedRoot st report.merkleRoot report.interval.min report.interval.max
          log).bySeqNum i = st.bySeqNum i)
    ∧ (consumeBlessedRoot st report.merkleRoot report.interval.min report.interval.max
        log).rootWatcher report.merkleRoot = none := by
  refine ⟨?_, ?_, ?_, ?_⟩
  · unfold reportBlessedTick
    rw [hroot]
  · intro i hi1 hi2
    exact storeBySeqInterval_inside _ _ _ _ _ hi1 hi2
  · intro i hi
    exact storeBySeqInterval_outside _ _ _ _ _ hi
  · simp [consumeBlessedRoot]

/-- Witness for C4 at the interval given in the spec `[5, 9]`: after root
consumption the sequence numbers 5 and 9 resolve to the blessing event,
4 and 10 stay empty, and the root entry is gone. -/
theorem assertReportBlessed_range_expansion_witness :
    (consumeBlessedRoot ⟨fun r => if r = 42 then some ⟨100, "0xb"⟩ else none, fun _ => none⟩
        42 5 9 ⟨100, "0xb"⟩).bySeqNum 5 = some ⟨100, "0xb"⟩
    ∧ (consumeBlessedRoot ⟨fun r => if r = 42 then some ⟨100, "0xb"⟩ else none, fun _ => none⟩
        42 5 9 ⟨100, "0xb"⟩).bySeqNum 9 = some ⟨100, "0xb"⟩
    ∧ (consumeBlessedRoot ⟨fun r => if r = 42 then some ⟨100, "0xb"⟩ else none, fun _ => none⟩
        42 5 9 ⟨100, "0xb"⟩).bySeqNum 4 = none
    ∧ (consumeBlessedRoot ⟨fun r => if r = 42 then some ⟨100, "0xb"⟩ else none, fun _ => none⟩
        42 5 9 ⟨100, "0xb"⟩).bySeqNum 10 = none
    ∧ (consumeBlessedRoot ⟨fun r => if r = 42 then some ⟨100, "0xb"⟩ else none, fun _ => none⟩
        42 5 9 ⟨100, "0xb"⟩).rootWatcher 42 = none := by
  have h := assertReportBlessed_range_expansion 7 ⟨42, ⟨5, 9⟩⟩ (fun _ => none) 0 0
    ⟨fun r => if r = 42 then some ⟨100, "0xb"⟩ else none, fun _ => none⟩ ⟨100, "0xb"⟩ rfl
  exact ⟨h.2.1 5 (by decide) (by decide), h.2.1 9 (by decide) (by decide),
    h.2.2.1 4 (by decide), h.2.2.1 10 (by decide), h.2.2.2⟩

/-! ## Claim C3: duplicate event delivery -/

/-- C3 counterexample: the claim says a duplicate delivery of the same raw
event under the same correlation key never changes the outcome of a phase wait,
but the `CCIPSendRequested` callback appends: with one request expected, a
wait over a single tick succeeds after one delivery of the event yet is left
waiting forever (tick check false) after the same event is delivered
twice. -/
theorem ccipSendRequested_duplicate_changes_outcome_cex :
    (AssertEventCCIPSendRequested (some true) "0xabc" 1 [Sig.tick]
        (storeCCIPSendRequested (fun _ => none) "0xabc" ⟨1, 10⟩)).result
      = some (Except.ok [⟨1, 10⟩])
    ∧ (AssertEventCCIPSendRequested (some true) "0xabc" 1 [Sig.tick]
        (storeCCIPSendRequested (storeCCIPSendRequested (fun _ => none) "0xabc" ⟨1, 10⟩)
          "0xabc" ⟨1, 10⟩)).result
      = none := by
  constructor
  · rfl
  · rfl

/-- C3 amended: duplicate delivery is idempotent for the overwrite-based
watcher stores (shown for `ExecutionStateChanged`: storing the same event
twice under the same key leaves the store exactly as after one store), but
not for the append-based `CCIPSendRequested` store: whenever the tick
check would succeed after a delivery, delivering the same event once more
makes the same tick check fail. -/
theorem watcher_duplicate_delivery (est : ExecStateStore) (k : Nat) (e : ExecStateChangedEvent)
    (sst : SendReqStore) (h : String) (ev : SendReqEvent) (n : Nat)
    (hsucc : sendReqTick h n (storeCCIPSendRequested sst h ev) ≠ none) :
    storeExecStateChanged (storeExecStateChanged est k e) k e = storeExecStateChanged est k e
    ∧ sendReqTick h n (storeCCIPSendRequested (storeCCIPSendRequested sst h ev) h ev) = none := by
  constructor
  · funext k'
    by_cases hk : k' = k <;> simp [storeExecStateChanged, hk]
  · cases hv : storeCCIPSendRequested sst h ev h with
    | none =>
        exact absurd (by simp [sendReqTick, hv]) hsucc
    | some L =>
        have hlen : L.length = n := by
          by_contra hne
          exact hsucc (by simp [sendReqTick, hv, hne])
        have hload2 : storeCCIPSendRequested (storeCCIPSendRequested sst h ev) h ev h
            = some (L ++ [ev]) := by
          show (if h = h then
              match storeCCIPSendRequested sst h ev h with
              | some evs => some (evs ++ [ev])
              | none => some [ev]
            else storeCCIPSendRequested sst h ev h) = some (L ++ [ev])
          rw [if_pos rfl, hv]
        simp only [sendReqTick, hload2]
        rw [if_neg (by simp only [List.length_append, List.length_cons, List.length_nil]; omega)]

/-- Witness for the amended C3: a concrete overwrite store and a concrete
append store with one expected request. -/
theorem watcher_duplicate_delivery_witness :
    storeExecStateChanged (storeExecStateChanged (fun _ => none) 4 ⟨2, 10, "0xe"⟩) 4 ⟨2, 10, "0xe"⟩
      = storeExecStateChanged (fun _ => none) 4 ⟨2, 10, "0xe"⟩
    ∧ sendReqTick "0xabc" 1
        (storeCCIPSendRequested (storeCCIPSendRequested (fun _ => none) "0xabc" ⟨1, 10⟩)
          "0xabc" ⟨1, 10⟩) = none := by
  have hw := watcher_duplicate_delivery (fun _ => none) 4 ⟨2, 10, "0xe"⟩ (fun _ => none) "0xabc"
    ⟨1, 10⟩ 1 (by simp [sendReqTick, storeCCIPSendRequested])
  exact hw

/-! ## Verify lemmas -/

theorem verifyAssertions_ok :
    ∀ (items : List (String × BalanceItem)) (prev : String → Option Int),
      (∀ p ∈ items, (prev p.1).isSome) →
      verifyAssertions items prev =
        Except.ok (items.map fun p => (p.1, expectedBalanceCalc ((prev p.1).getD 0) p.2)) := by
  intro items
  induction items with
  | nil => intro prev _; rfl
  | cons p rest ih =>
      intro prev h
      obtain ⟨key, item⟩ := p
      have hk : (prev key).isSome := h (key, item) (by simp)
      cases hp : prev key with
      | none => rw [hp] at hk; simp at hk
      | some pb =>
          show verifyAssertions ((key, item) :: rest) prev = _
          unfold verifyAssertions
          rw [hp]
          rw [ih prev fun q hq => h q (by simp [hq])]
          simp [hp, Except.map]

theorem verifyAssertions_error :
    ∀ (items : List (String × BalanceItem)) (prev : String → Option Int) (k : String),
      firstMissingPrev items prev = some k →
      verifyAssertions items prev =
        Except.error ("previous balance is not captured for " ++ k) := by
  intro items
  induction items with
  | nil => intro prev k h; simp [firstMissingPrev] at h
  | cons p rest ih =>
      intro prev k h
      obtain ⟨key, item⟩ := p
      unfold firstMissingPrev at h
      unfold verifyAssertions
      cases hp : prev key with
      | none =>
          rw [hp] at h
          simp only [Option.some.injEq] at h
          rw [h]
      | some pb =>
          rw [hp] at h
          rw [ih prev k h]
          rfl

theorem firstMissingPrev_isSome :
    ∀ (items : List (String × BalanceItem)) (prev : String → Option Int),
      (∃ p ∈ items, prev p.1 = none) → (firstMissingPrev items prev).isSome := by
  intro items
  induction items with
  | nil => intro prev h; simp at h
  | cons p rest ih =>
      intro prev h
      obtain ⟨key, item⟩ := p
      unfold firstMissingPrev
      cases hp : prev key with
      | none => rfl
      | some pb =>
          apply ih prev
          obtain ⟨q, hq, hqn⟩ := h
          rcases List.mem_cons.mp hq with rfl | hq'
          · rw [hp] at hqn; cases hqn
          · exact ⟨q, hq', hqn⟩

theorem all_map_comp {a b : Type} (l : List a) (f : a → b) (p : b → Bool) :
    (l.map f).all p = l.all fun x => p (f x) := by
  induction l with
  | nil => rfl
  | cons x xs ih => simp [ih]

/-! ## Claim C6: BalanceSheet.Verify -/

/-- C6: `BalanceSheet.Verify` checks, for every key in `Items`, that the
actual balance equals `PrevBalance[key] + AmtToAdd - AmtToSub` (nil amounts
contributing zero): when every item key has a previous balance, `Verify`
returns the conjunction of exactly those balance assertions; and when some
item key has no `PrevBalance` entry, `Verify` aborts with the
"previous balance is not captured" error (so no balance is asserted). -/
theorem balanceSheet_verify_spec (b : BalanceSheet) (actual : String → Int) :
    ((∀ p ∈ b.Items, (b.PrevBalance p.1).isSome) →
      b.Verify actual = Except.ok (b.Items.all fun p =>
        actual p.1 == expectedBalanceCalc ((b.PrevBalance p.1).getD 0) p.2))
    ∧ (∀ k, firstMissingPrev b.Items b.PrevBalance = some k →
        b.Verify actual = Except.error ("previous balance is not captured for " ++ k))
    ∧ ((∃ p ∈ b.Items, b.PrevBalance p.1 = none) →
        (firstMissingPrev b.Items b.PrevBalance).isSome) := by
  refine ⟨?_, ?_, ?_⟩
  · intro h
    unfold BalanceSheet.Verify
    rw [verifyAssertions_ok b.Items b.PrevBalance h]
    simp only [Except.map, AssertBalances]
    rw [all_map_comp]
  · intro k hk
    unfold BalanceSheet.Verify
    rw [verifyAssertions_error b.Items b.PrevBalance k hk]
    rfl
  · exact firstMissingPrev_isSome b.Items b.PrevBalance

/-- Witness for C6: a sheet whose single key has baseline 100, add 30,
sub 10 verifies against an actual balance of 120; a sheet with no recorded
baseline aborts with the capture error. -/
theorem balanceSheet_verify_spec_witness :
    (BalanceSheet.mk [("a", ⟨"addr", some 30, some 10⟩)]
        (fun k => if k = "a" then some 100 else none)).Verify (fun _ => 120) = Except.ok true
    ∧ (BalanceSheet.mk [("b", ⟨"addr", none, none⟩)] (fun _ => none)).Verify (fun _ => 0)
      = Except.error ("previous balance is not captured for " ++ "b") := by
  constructor
  · have h := (balanceSheet_verify_spec
      ⟨[("a", ⟨"addr", some 30, some 10⟩)], fun k => if k = "a" then some 100 else none⟩
      (fun _ => 120)).1 (by decide)
    rw [h]
    rfl
  · exact (balanceSheet_verify_spec ⟨[("b", ⟨"addr", none, none⟩)], fun _ => none⟩
      (fun _ => 0)).2.1 "b" rfl

/-! ## Validation-pipeline lemmas -/

theorem validateMsgs_spec (s f : Bool) :
    ∀ msgs : List MsgOracle,
      (∃ t', (validateMsgs msgs).1 ++ t' = msgs.flatMap msgPhases)
      ∧ (∀ p ∈ (validateMsgs msgs).1.dropLast, phaseCallOk s f p = true)
      ∧ (∀ p ∈ (validateMsgs msgs).1, phaseCallOk s f p = false →
          (validateMsgs msgs).2.isSome = true ∧ (validateMsgs msgs).1.getLast? = some p)
      ∧ ((validateMsgs msgs).2 = none → (validateMsgs msgs).1 = msgs.flatMap msgPhases) := by
  intro msgs
  induction msgs with
  | nil =>
      exact ⟨⟨[], rfl⟩, by simp [validateMsgs], by simp [validateMsgs], fun _ => rfl⟩
  | cons m rest ih =>
      by_cases hsf : m.statFound
      case neg =>
          have hv : validateMsgs (m :: rest) =
              ([], some "could not find request stat for seq number") := by
            simp [validateMsgs, hsf]
          rw [hv]
          exact ⟨⟨msgPhases m ++ rest.flatMap msgPhases, by simp⟩, by simp, by simp, by simp⟩
      case pos =>
      by_cases hd1 : m.destSeqOk
      case neg =>
          have hv : validateMsgs (m :: rest) =
              ([PhaseCall.msg m DestPhase.destSeqIncrement],
                some "could not validate seq number increase at commit store") := by
            simp [validateMsgs, hsf, hd1]
          rw [hv]
          refine ⟨⟨[PhaseCall.msg m DestPhase.reportAccepted, PhaseCall.msg m DestPhase.reportBlessed,
            PhaseCall.msg m DestPhase.execStateChanged] ++ rest.flatMap msgPhases,
            by simp [msgPhases]⟩, by simp, ?_, by simp⟩
          intro p hp hfail
          simp at hp
          subst hp
          exact ⟨rfl, rfl⟩
      case pos =>
      by_cases hd2 : m.repAccOk
      case neg =>
          have hv : validateMsgs (m :: rest) =
              ([PhaseCall.msg m DestPhase.destSeqIncrement, PhaseCall.msg m DestPhase.reportAccepted],
                some "could not validate ReportAccepted event") := by
            simp [validateMsgs, hsf, hd1, hd2]
          rw [hv]
          refine ⟨⟨[PhaseCall.msg m DestPhase.reportBlessed, PhaseCall.msg m DestPhase.execStateChanged]
            ++ rest.flatMap msgPhases, by simp [msgPhases]⟩, ?_, ?_, by simp⟩
          · intro p hp
            simp at hp
            subst hp
            simp [phaseCallOk, destPhaseOk, hd1]
          · intro p hp hfail
            rcases (by simpa using hp : p = PhaseCall.msg m DestPhase.destSeqIncrement
                ∨ p = PhaseCall.msg m DestPhase.reportAccepted) with rfl | rfl
            · simp [phaseCallOk, destPhaseOk, hd1] at hfail
            · exact ⟨rfl, rfl⟩
      case pos =>
      by_cases hd3 : m.repBlessOk
      case neg =>
          have hv : validateMsgs (m :: rest) =
              ([PhaseCall.msg m DestPhase.destSeqIncrement, PhaseCall.msg m DestPhase.reportAccepted,
                PhaseCall.msg m DestPhase.reportBlessed],
                some "could not validate ReportBlessed event") := by
            simp [validateMsgs, hsf, hd1, hd2, hd3]
          rw [hv]
          refine ⟨⟨[PhaseCall.msg m DestPhase.execStateChanged] ++ rest.flatMap msgPhases,
            by simp [msgPhases]⟩, ?_, ?_, by simp⟩
          · intro p hp
            rcases (by simpa using hp : p = PhaseCall.msg m DestPhase.destSeqIncrement
                ∨ p = PhaseCall.msg m DestPhase.reportAccepted) with rfl | rfl
            · simp [phaseCallOk, destPhaseOk, hd1]
            · simp [phaseCallOk, destPhaseOk, hd2]
          · intro p hp hfail
            rcases (by simpa using hp : p = PhaseCall.msg m DestPhase.destSeqIncrement
                ∨ p = PhaseCall.msg m DestPhase.reportAccepted
                ∨ p = PhaseCall.msg m DestPhase.reportBlessed) with rfl | rfl | rfl
            · simp [phaseCallOk, destPhaseOk, hd1] at hfail
            · simp [phaseCallOk, destPhaseOk, hd2] at hfail
            · exact ⟨rfl, rfl⟩
      case pos =>
      by_cases hd4 : m.execOk
      case neg =>
          have hv : validateMsgs (m :: rest) =
              (msgPhases m, some "could not validate ExecutionStateChanged event") := by
            simp [validateMsgs, hsf, hd1, hd2, hd3, hd4]
          rw [hv]
          refine ⟨⟨rest.flatMap msgPhases, by simp [msgPhases]⟩, ?_, ?_, by simp⟩
          · intro p hp
            rcases (by simpa [msgPhases] using hp : p = PhaseCall.msg m DestPhase.destSeqIncrement
                ∨ p = PhaseCall.msg m DestPhase.reportAccepted
                ∨ p = PhaseCall.msg m DestPhase.reportBlessed) with rfl | rfl | rfl
            · simp [phaseCallOk, destPhaseOk, hd1]
            · simp [phaseCallOk, destPhaseOk, hd2]
            · simp [phaseCallOk, destPhaseOk, hd3]
          · intro p hp hfail
            rcases (by simpa [msgPhases] using hp : p = PhaseCall.msg m DestPhase.destSeqIncrement
                ∨ p = PhaseCall.msg m DestPhase.reportAccepted
                ∨ p = PhaseCall.msg m DestPhase.reportBlessed
                ∨ p = PhaseCall.msg m DestPhase.execStateChanged) with rfl | rfl | rfl | rfl
            · simp [phaseCallOk, destPhaseOk, hd1] at hfail
            · simp [phaseCallOk, destPhaseOk, hd2] at hfail
            · simp [phaseCallOk, destPhaseOk, hd3] at hfail
            · exact ⟨rfl, rfl⟩
      case pos =>
          have hv : validateMsgs (m :: rest) =
              (msgPhases m ++ (validateMsgs rest).1, (validateMsgs rest).2) := by
            simp [validateMsgs, hsf, hd1, hd2, hd3, hd4]
          rw [hv]
          have hmem_ok : ∀ p ∈ msgPhases m, phaseCallOk s f p = true := by
            intro p hp
            rcases (by simpa [msgPhases] using hp : p = PhaseCall.msg m DestPhase.destSeqIncrement
                ∨ p = PhaseCall.msg m DestPhase.reportAccepted
                ∨ p = PhaseCall.msg m DestPhase.reportBlessed
                ∨ p = PhaseCall.msg m DestPhase.execStateChanged) with rfl | rfl | rfl | rfl
            · simp [phaseCallOk, destPhaseOk, hd1]
            · simp [phaseCallOk, destPhaseOk, hd2]
            · simp [phaseCallOk, destPhaseOk, hd3]
            · simp [phaseCallOk, destPhaseOk, hd4]
          refine ⟨?_, ?_, ?_, ?_⟩
          · obtain ⟨t', ht'⟩ := ih.1
            refine ⟨t', ?_⟩
            rw [List.append_assoc, ht']
            simp
          · intro p hp
            cases ht : (validateMsgs rest).1 with
            | nil =>
                rw [ht] at hp
                simp only [List.append_nil] at hp
                have hp' : p ∈ msgPhases m := List.mem_of_mem_dropLast hp
                exact hmem_ok p hp'
            | cons a l =>
                rw [ht, List.dropLast_append_cons] at hp
                rcases List.mem_append.mp hp with h1 | h2
                · exact hmem_ok p h1
                · apply ih.2.1
                  rw [ht]
                  exact h2
          · intro p hp hfail
            rcases List.mem_append.mp hp with h1 | h2
            · rw [hmem_ok p h1] at hfail
              cases hfail
            · obtain ⟨h1', h2'⟩ := ih.2.2.1 p h2 hfail
              refine ⟨h1', ?_⟩
              rw [List.getLast?_append, h2']
              rfl
          · intro he
            rw [ih.2.2.2 he]
            simp

/-! ## Claim C1: strict phase order with short-circuit -/

/-- C1: `ValidateRequestByTxHash` starts phase waits strictly in the fixed
order Send, SourceFinalized, then per message DestSeqIncrement,
ReportAccepted, ReportBlessed, ExecutionStateChanged: the started waits form
a prefix of that canonical order; every started wait except possibly the
last returned Success before the next one started; a started wait that fails
is the last one started (no later phase wait is started) and the function
returns an error; and when no error is returned every phase of the canonical
order was started. -/
theorem validateRequestByTxHash_phase_order (s f : Bool) (msgs : List MsgOracle) :
    (∃ t', (ValidateRequestByTxHash s f msgs).1 ++ t' = canonicalTrace msgs)
    ∧ (∀ p ∈ (ValidateRequestByTxHash s f msgs).1.dropLast, phaseCallOk s f p = true)
    ∧ (∀ p ∈ (ValidateRequestByTxHash s f msgs).1, phaseCallOk s f p = false →
        (ValidateRequestByTxHash s f msgs).2.isSome = true
        ∧ (ValidateRequestByTxHash s f msgs).1.getLast? = some p)
    ∧ ((ValidateRequestByTxHash s f msgs).2 = none →
        (ValidateRequestByTxHash s f msgs).1 = canonicalTrace msgs) := by
  cases s with
  | false =>
      have hv : ValidateRequestByTxHash false f msgs =
          ([PhaseCall.send], some "could not validate CCIPSendRequested event") := by
        simp [ValidateRequestByTxHash]
      rw [hv]
      refine ⟨⟨PhaseCall.srcFin :: msgs.flatMap msgPhases, rfl⟩, by simp, ?_, by simp⟩
      intro p hp hfail
      simp at hp
      subst hp
      exact ⟨rfl, rfl⟩
  | true =>
      cases f with
      | false =>
          have hv : ValidateRequestByTxHash true false msgs =
              ([PhaseCall.send, PhaseCall.srcFin],
                some "could not finalize CCIPSendRequested event") := by
            simp [ValidateRequestByTxHash]
          rw [hv]
          refine ⟨⟨msgs.flatMap msgPhases, rfl⟩, ?_, ?_, by simp⟩
          · intro p hp
            simp at hp
            subst hp
            rfl
          · intro p hp hfail
            rcases (by simpa using hp : p = PhaseCall.send ∨ p = PhaseCall.srcFin) with rfl | rfl
            · cases hfail
            · exact ⟨rfl, rfl⟩
      | true =>
          have hv : ValidateRequestByTxHash true true msgs =
              (PhaseCall.send :: PhaseCall.srcFin :: (validateMsgs msgs).1,
                (validateMsgs msgs).2) := by
            simp [ValidateRequestByTxHash]
          rw [hv]
          have ih := validateMsgs_spec true true msgs
          refine ⟨?_, ?_, ?_, ?_⟩
          · obtain ⟨t', ht'⟩ := ih.1
            refine ⟨t', ?_⟩
            simp only [canonicalTrace, List.cons_append]
            rw [ht']
          · intro p hp
            cases ht : (validateMsgs msgs).1 with
            | nil =>
                rw [ht] at hp
                rcases (by simpa using hp : p = PhaseCall.send) with rfl
                rfl
            | cons a l =>
                rw [ht, List.dropLast_cons₂, List.dropLast_cons₂] at hp
                rcases (by simpa using hp :
                    p = PhaseCall.send ∨ p = PhaseCall.srcFin ∨ p ∈ (a :: l).dropLast)
                  with rfl | rfl | hp'
                · rfl
                · rfl
                · apply ih.2.1
                  rw [ht]
                  exact hp'
          · intro p hp hfail
            rcases (by simpa using hp :
                p = PhaseCall.send ∨ p = PhaseCall.srcFin ∨ p ∈ (validateMsgs msgs).1)
              with rfl | rfl | hp'
            · cases hfail
            · cases hfail
            · obtain ⟨h1', h2'⟩ := ih.2.2.1 p hp' hfail
              refine ⟨h1', ?_⟩
              have hsplit : PhaseCall.send :: PhaseCall.srcFin :: (validateMsgs msgs).1 =
                  [PhaseCall.send, PhaseCall.srcFin] ++ (validateMsgs msgs).1 := rfl
              rw [hsplit, List.getLast?_append, h2']
              rfl
          · intro he
            rw [ih.2.2.2 he]
            rfl

/-- Witness for C1: with all waits succeeding except ReportBlessed of the
only message, the failing ReportBlessed wait is the last one started and the
function returns an error. -/
theorem validateRequestByTxHash_phase_order_witness :
    (ValidateRequestByTxHash true true [⟨true, true, true, false, true⟩]).2.isSome = true
    ∧ (ValidateRequestByTxHash true true [⟨true, true, true, false, true⟩]).1.getLast? =
        some (PhaseCall.msg ⟨true, true, true, false, true⟩ DestPhase.reportBlessed) := by
  have h := validateRequestByTxHash_phase_order true true [⟨true, true, true, false, true⟩]
  exact h.2.2.1 (PhaseCall.msg ⟨true, true, true, false, true⟩ DestPhase.reportBlessed)
    (by decide) (by decide)

end CCIPModel
